import Mathlib

/-!
Verification of the cs2-tradeup-calculator market-data pipeline (`src/app.py`).

The Python source is shallowly embedded here:
* strings are `List Char` / `String` (Python `str` indices are characters);
* Python exceptions become the `PyRes` sum type (`ok` / `exn message`);
* the network is an oracle `Net : String → PyRes String` mapping a URL to the
  response text (`exn` models a transport exception raised by `httpx`);
* wall-clock time, `time.sleep` and `random.uniform` are modelled over `ℚ`,
  with the uniformly drawn pacing delays supplied as an explicit sequence;
* `dict` values built by `item_data` become association lists
  `List (String × Value)` in insertion order.

Definitions mirror `src/app.py`; helper functions reimplement the exact
Python primitives used there (`str.split`, `str.find`, slicing, `int()`,
`eval` on the bracketed order-graph literals) with structural recursion so
that every definition evaluates inside the kernel.
-/

/-- Result of a Python computation: a value or a raised exception carrying
`str(e)`. -/
inductive PyRes (α : Type) where
  | ok (a : α)
  | exn (msg : String)
deriving DecidableEq, Repr

/-- JSON-ish values stored in the `data` dict built by `item_data`. -/
inductive Value where
  | num (q : ℚ)
  | intv (n : Int)
  | orders (l : List (ℚ × Int))
  | vnone
  | vstr (s : String)
deriving DecidableEq, Repr

/-- The `data` dictionary built by `item_data`, as an association list in
insertion order. -/
abbrev Dict := List (String × Value)

/-- The network oracle: response text (or a raised transport exception) for
each URL requested through the rate-limited client. -/
abbrev Net := String → PyRes String

/-! ## Character-list primitives mirroring the Python string operations -/

/-- `startsWith p l` : `p` is a leading segment of `l` (Python `str.startswith`,
used to locate substrings). -/
def startsWith : List Char → List Char → Bool
  | [], _ => true
  | _ :: _, [] => false
  | a :: p, b :: l => a = b && startsWith p l

/-- One step of Python `str.replace(" ", "%20")`: every space becomes the three
characters `%20`, all other characters are kept. -/
def encL : List Char → List Char
  | [] => []
  | c :: l => (if c = ' ' then ['%', '2', '0'] else [c]) ++ encL l

/-- Python `s.replace(" ", "%20")` on `String`. -/
def pyReplaceSpace (s : String) : String := ⟨encL s.data⟩

/-- Auxiliary for Python `str.split(sep)` (with non-empty `sep`): scan left to
right, cutting at each leftmost occurrence of `sep`.  `fuel` bounds the
recursion; `fuel = length + 1` always suffices because each step consumes at
least one character. -/
def pySplitAux (sep : List Char) : Nat → List Char → List Char → List (List Char)
  | 0, l, acc => [acc ++ l]
  | fuel + 1, l, acc =>
    if startsWith sep l then
      acc :: pySplitAux sep fuel (l.drop sep.length) []
    else
      match l with
      | [] => [acc]
      | c :: t => pySplitAux sep fuel t (acc ++ [c])

/-- Python `s.split(sep)` for a non-empty separator. -/
def pySplit (s sep : String) : List String :=
  (pySplitAux sep.data (s.data.length + 1) s.data []).map fun l => ⟨l⟩

/-- Auxiliary for Python `str.find`: index of the leftmost occurrence of `sub`
in `l`, counting from `i`. -/
def findSubAux (sub : List Char) : List Char → Nat → Option Nat
  | l, i =>
    if startsWith sub l then some i
    else
      match l with
      | [] => none
      | _ :: t => findSubAux sub t (i + 1)

/-- Python `s.find(sub, start)` for `start ≥ 0`: leftmost character index of
`sub` at or after `start`, or `-1`. -/
def pyFind (s sub : String) (start : Int) : Int :=
  match findSubAux sub.data (s.data.drop start.toNat) 0 with
  | some i => (start.toNat + i : Nat)
  | none => -1

/-- Python slice `s[a:b]` for `0 ≤ a, b` (the only case the source hits). -/
def pySlice (s : String) (a b : Int) : String :=
  ⟨(s.data.drop a.toNat).take (b.toNat - a.toNat)⟩

/-- Numeric value of a digit list (most significant first). -/
def digitsVal (l : List Char) : Nat :=
  l.foldl (fun acc c => acc * 10 + (c.toNat - '0'.toNat)) 0

/-- Whether every character is a decimal digit. -/
def allDigits (l : List Char) : Bool := l.all fun c => c.isDigit

/-- Python `int(s)` on the token strings the source extracts: an optional
sign followed by a non-empty digit string parses; anything else raises
`ValueError` (modelled as `none`). -/
def pyInt (s : String) : Option Int :=
  match s.data with
  | [] => none
  | '-' :: ds =>
    if ds ≠ [] ∧ allDigits ds then some (-(digitsVal ds : Int)) else none
  | ds =>
    if allDigits ds ∧ ds ≠ [] then some (digitsVal ds : Int) else none

/-! ## RateLimitedClient (`src/app.py` lines 22–56)

`wait_if_needed` sleeps until the randomized minimum spacing has elapsed;
`get` dispatches the request, records the time the response came back, and on
an HTTP 429 error sleeps 5 seconds and retries itself recursively.

The model makes the implicit quantities explicit: `last` is
`self.last_request_time`, `now` the current `time.time()`, `delay` the value
drawn by `random.uniform(min_delay, max_delay)`, and each network attempt
reports how long it took (`dur`) and how it ended. -/

/-- Outcome of one underlying `self.client.get(url)` attempt, taking `dur`
time units: a response, an `httpx.HTTPError` with status 429, or any other
`httpx.HTTPError`. -/
inductive Attempt where
  | ok (dur : ℚ)
  | err429 (dur : ℚ)
  | errOther (dur : ℚ)
deriving DecidableEq, Repr

/-- Duration of an attempt. -/
def Attempt.dur : Attempt → ℚ
  | .ok d => d
  | .err429 d => d
  | .errOther d => d

/-- How a `RateLimitedClient.get` call ended in the model: returned a
response, re-raised a non-429 error, or consumed every modelled attempt while
still retrying (the recursion has no stopping rule of its own). -/
inductive GetResult where
  | ok
  | raised
  | exhausted
deriving DecidableEq, Repr

/-- Trace of one `RateLimitedClient.get` call: the dispatch timestamps of the
underlying requests (one per attempt, retries included), the value of
`self.last_request_time` afterwards, and how the call ended. -/
structure GetTrace where
  dispatches : List ℚ
  newLast : ℚ
  result : GetResult
deriving DecidableEq, Repr

/-- `wait_if_needed` (lines 30–38): returns the dispatch time.  If a previous
request was recorded and less than `delay` has elapsed since, sleep the
difference. -/
def wait_if_needed (last now delay : ℚ) : ℚ :=
  if 0 < last then
    if now - last < delay then now + (delay - (now - last)) else now
  else now

/-- `RateLimitedClient.get` (lines 40–52) driven by the list of outcomes of
the successive underlying attempts.  `delays k` is the value
`random.uniform(min_delay, max_delay)` drawn by the `k`-th `wait_if_needed`.
On success `last_request_time := time.time()` (response time); on a non-429
error it is left unchanged and the error propagates; on a 429 the code sleeps
5 time units and retries itself. -/
def client_get (delays : Nat → ℚ) : ℚ → ℚ → Nat → List Attempt → GetTrace
  | last, _, _, [] => ⟨[], last, .exhausted⟩
  | last, now, k, .ok dur :: _ =>
    let d := wait_if_needed last now (delays k)
    ⟨[d], d + dur, .ok⟩
  | last, now, k, .errOther dur :: _ =>
    let d := wait_if_needed last now (delays k)
    let _ := dur
    ⟨[d], last, .raised⟩
  | last, now, k, .err429 dur :: rest =>
    let d := wait_if_needed last now (delays k)
    let t := client_get delays last (d + dur + 5) (k + 1) rest
    ⟨d :: t.dispatches, t.newLast, t.result⟩

/-! ## HashnameBuilder: `get_hashname` (lines 58–83) -/

/-- The `float_conditions` wear-tier table; indexing with any other key raises
`KeyError` (modelled as `none`). -/
def float_conditions (wear : Int) : Option String :=
  if wear = 0 then some "%20%28Factory%20New%29"
  else if wear = 1 then some "%20%28Minimal%20Wear%29"
  else if wear = 2 then some "%20%28Field-Tested%29"
  else if wear = 3 then some "%20%28Well-Worn%29"
  else if wear = 4 then some "%20%28Battle-Scarred%29"
  else none

/-- `get_hashname(item, skin, wear, stat)`: percent-encode the spaces, look up
the wear suffix, optionally prepend the StatTrak marker, join with the encoded
pipe.  `none` models the `KeyError` raised on a wear tier outside 0–4. -/
def get_hashname (item skin : String) (wear : Int) (stat : Int) : Option String :=
  let item := pyReplaceSpace item
  let skin := pyReplaceSpace skin
  match float_conditions wear with
  | none => none
  | some wearSuffix =>
    let item := if stat = 1 then "StatTrak™%20" ++ item else item
    some (item ++ "%20%7C%20" ++ skin ++ wearSuffix)

/-! ## ListingIdResolver: `get_nameid` (lines 85–93) -/

/-- The listing-page URL for a hashname (line 88). -/
def listingUrlOf (hashname : String) : String :=
  "https://steamcommunity.com/market/listings/730/" ++ hashname

/-- The order-histogram URL for a nameid (lines 113–115). -/
def histUrlOf (nameid : String) : String :=
  "https://steamcommunity.com/market/itemordershistogram?country=US&currency=1&language=english&two_factor=0&item_nameid=" ++ nameid

/-- The price-overview URL for a hashname (lines 156–158). -/
def volUrlOf (hashname : String) : String :=
  "https://steamcommunity.com/market/priceoverview/?appid=730&currency=1&market_hash_name=" ++ hashname

/-- `get_nameid(hashname, client)`: fetch the listing page and parse the
integer after the `Market_LoadOrderSpread( ` marker.  A missing marker raises
`IndexError`, a non-numeric token raises `ValueError`, and a transport error
from the client propagates. -/
def get_nameid (hashname : String) (net : Net) : PyRes Int :=
  match net (listingUrlOf hashname) with
  | .exn e => .exn e
  | .ok html =>
    match (pySplit html "Market_LoadOrderSpread( ").get? 1 with
    | none => .exn "list index out of range"
    | some s =>
      let tok := (pySplit s " ").headD ""
      match pyInt tok with
      | none => .exn ("invalid literal for int() with base 10: " ++ tok)
      | some n => .ok n

/-! ## OrderBookFetcher: `item_data` (lines 95–170) -/

/-- Slice out one bracketed order-graph literal (lines 124–132): everything
from just after the label up to and including the first `]],`-terminated
closing, exactly as `find`/slicing compute it (including the degenerate
slices produced when a marker is absent and `find` returns `-1`). -/
def graphSlice (orderData label : String) : String :=
  let start := pyFind orderData label 0 + (label.length : Int)
  let stop := pyFind orderData "]]," start + 2
  pySlice orderData start stop

/-- Skip leading spaces (Python `eval` ignores whitespace around tokens). -/
def skipWs : List Char → List Char
  | ' ' :: l => skipWs l
  | l => l

/-- Parse a decimal number literal: optional `-`, digits, optional fractional
part.  Returns the value and the remaining characters. -/
def parseNum (l : List Char) : Option (ℚ × List Char) :=
  let l := skipWs l
  let (neg, l) := match l with
    | '-' :: t => (true, t)
    | _ => (false, l)
  let ds := l.takeWhile fun c => c.isDigit
  let l₁ := l.dropWhile fun c => c.isDigit
  if ds = [] then none
  else
    let ipart : ℚ := (digitsVal ds : ℚ)
    let (q, rest) :=
      match l₁ with
      | '.' :: t =>
        let fs := t.takeWhile fun c => c.isDigit
        let t₁ := t.dropWhile fun c => c.isDigit
        ((digitsVal fs : ℚ) / (10 : ℚ) ^ fs.length + ipart, t₁)
      | _ => (ipart, l₁)
    some (if neg then -q else q, rest)

/-- Parse an integer literal (the cumulative-count entries). -/
def parseIntLit (l : List Char) : Option (Int × List Char) :=
  let l := skipWs l
  let (neg, l) := match l with
    | '-' :: t => (true, t)
    | _ => (false, l)
  let ds := l.takeWhile fun c => c.isDigit
  let l₁ := l.dropWhile fun c => c.isDigit
  if ds = [] then none
  else some (if neg then -(digitsVal ds : Int) else (digitsVal ds : Int), l₁)

/-- Parse one `[price, count]` pair. -/
def parsePair (l : List Char) : Option ((ℚ × Int) × List Char) :=
  match skipWs l with
  | '[' :: t =>
    match parseNum t with
    | none => none
    | some (q, t₁) =>
      match skipWs t₁ with
      | ',' :: t₂ =>
        match parseIntLit t₂ with
        | none => none
        | some (n, t₃) =>
          match skipWs t₃ with
          | ']' :: t₄ => some ((q, n), t₄)
          | _ => none
      | _ => none
  | _ => none

/-- Parse the tail of a pair list: `]`, or `, pair` repeated.  Fuelled; each
step consumes at least one character. -/
def parsePairsRest : Nat → List (ℚ × Int) → List Char → Option (List (ℚ × Int) × List Char)
  | 0, _, _ => none
  | fuel + 1, acc, l =>
    match skipWs l with
    | ']' :: t => some (acc.reverse, t)
    | ',' :: t =>
      match parsePair t with
      | none => none
      | some (p, t₁) => parsePairsRest fuel (p :: acc) t₁
    | _ => none

/-- Model of `eval` on the sliced order-graph text (lines 135–137 with the
conversion on lines 140–147): it succeeds exactly on a bracketed list of
`[number, integer]` pairs with nothing but whitespace after it, producing the
`(float(order[0]), order[1])` pairs in source order; on any other text the
`try` fails. -/
def evalGraph (s : String) : Option (List (ℚ × Int)) :=
  match skipWs s.data with
  | '[' :: t =>
    match skipWs t with
    | ']' :: t₁ => if skipWs t₁ = [] then some [] else none
    | _ =>
      match parsePair t with
      | none => none
      | some (p, t₁) =>
        match parsePairsRest (t₁.length + 1) [p] t₁ with
        | none => none
        | some (ps, t₂) => if skipWs t₂ = [] then some ps else none
  | _ => none

/-- Extract one scaled-integer price field (lines 119–120):
`int(order_data.split(label)[1].split('"')[0]) / 100`. -/
def extractScaled (orderData label : String) : PyRes ℚ :=
  match (pySplit orderData label).get? 1 with
  | none => .exn "list index out of range"
  | some s =>
    let tok := (pySplit s "\"").headD ""
    match pyInt tok with
    | none => .exn ("invalid literal for int() with base 10: " ++ tok)
    | some n => .ok ((n : ℚ) / 100)

/-- `item_data(hashname, client)` (lines 95–170).  Returns the built `data`
dict (or the propagated exception) together with the list of URLs requested.
The histogram fetch and the two mandatory price fields must succeed; the two
order graphs are parsed inside one `try` whose handler empties both sides;
the volume fetch and parse sit in their own `try` whose handler stores
`None`. -/
def item_data (hashname : String) (net : Net) : PyRes Dict × List String :=
  let listingUrl := listingUrlOf hashname
  match get_nameid hashname net with
  | .exn e => (.exn e, [listingUrl])
  | .ok nameidInt =>
    let nameid := toString nameidInt
    let histUrl := histUrlOf nameid
    match net histUrl with
    | .exn e => (.exn e, [listingUrl, histUrl])
    | .ok orderData =>
      match extractScaled orderData "\"highest_buy_order\":\"" with
      | .exn e => (.exn e, [listingUrl, histUrl])
      | .ok buyReq =>
        match extractScaled orderData "\"lowest_sell_order\":\"" with
        | .exn e => (.exn e, [listingUrl, histUrl])
        | .ok sellReq =>
          let buyGraphStr := graphSlice orderData "\"buy_order_graph\":"
          let sellGraphStr := graphSlice orderData "\"sell_order_graph\":"
          let (buyOrders, sellOrders) :=
            match evalGraph buyGraphStr, evalGraph sellGraphStr with
            | some bg, some sg => (bg, sg)
            | _, _ => ([], [])
          let volUrl := volUrlOf hashname
          let volume : Value :=
            match net volUrl with
            | .exn _ => .vnone
            | .ok vtext =>
              match (pySplit vtext "volume\":\"").get? 1 with
              | none => .vnone
              | some s =>
                match pyInt ((pySplit s "\"").headD "") with
                | none => .vnone
                | some n => .intv n
          (.ok [("buy_req", .num buyReq), ("sell_req", .num sellReq),
                ("buy_orders", .orders buyOrders), ("sell_orders", .orders sellOrders),
                ("volume", volume), ("nameid", .vstr nameid)],
           [listingUrl, histUrl, volUrl])

/-! ## BatchProcessor: `process_all_skins` (lines 215–296)

A catalog item is a JSON object; the model keeps the fields the loop reads
(`name`, `wear`, `stat`, each possibly absent) plus the `market_data` entry
the loop writes into the *same* dict (`skin['market_data'] = ...`).  The
record appended to `processed_skins` is that mutated dict itself. -/

/-- A catalog item dict.  `market_data = none` models the key being absent. -/
structure Skin where
  name : Option String
  wear : Option Int
  stat : Option Int
  market_data : Option (PyRes Dict)
deriving DecidableEq, Repr

/-- The fields of a `Skin` that `process_all_skins` only reads. -/
def Skin.fields (sk : Skin) : Option String × Option Int × Option Int :=
  (sk.name, sk.wear, sk.stat)

/-- Outcome of reading and `json.load`-ing the input file: missing file
(`FileNotFoundError`), unparsable contents (`json.JSONDecodeError`), or the
decoded list of catalog items. -/
inductive ReadOutcome where
  | missing
  | invalidJson
  | ok (skins : List Skin)

/-- Observable outcome of a `process_all_skins` run:
* `records` — the final `processed_skins` accumulator;
* `writes` — the successive complete contents written to the output file, in
  order (the initial empty array included);
* `skinsAfter` — the input list as it stands after the run (the loop mutates
  its elements in place);
* `requests` — every URL requested, in order;
* `exitSuccess` — whether the process terminates with a success status. -/
structure Run where
  records : List Skin
  writes : List (List Skin)
  skinsAfter : List Skin
  requests : List String
  exitSuccess : Bool
deriving Repr

/-- The body of the per-item `try` for an item whose `name` key is present
(lines 247–277): split the name on `" | "`, build the hashname (`KeyError`
on a wear tier outside 0–4, whose `str(e)` is the key), fetch the market
data, and store the result — the data dict on success, `{"error": str(e)}`
on any exception — into the item itself.  Returns the mutated item and the
URLs requested. -/
def processNamed (net : Net) (sk : Skin) (nm : String) : Skin × List String :=
  let parts := pySplit nm " | "
  match parts.get? 1 with
  | none => ({ sk with market_data := some (.exn "list index out of range") }, [])
  | some second =>
    match get_hashname (parts.headD "") second (sk.wear.getD 0) (sk.stat.getD 0) with
    | none =>
      ({ sk with market_data := some (.exn (toString (sk.wear.getD 0))) }, [])
    | some hashname =>
      match item_data hashname net with
      | (.exn e, reqs) => ({ sk with market_data := some (.exn e) }, reqs)
      | (.ok d, reqs) => ({ sk with market_data := some (.ok d) }, reqs)

/-- Accumulator state of the processing loop. -/
structure LoopState where
  records : List Skin
  writes : List (List Skin)
  skinsAfter : List Skin
  requests : List String

/-- One iteration of the `for i, skin in enumerate(skins, 1)` loop: an item
with no `name` key is skipped (logged, nothing recorded, no write); otherwise
the item is processed, the mutated item is appended to `processed_skins`, and
the whole accumulator is rewritten to the output file. -/
def processStep (net : Net) (st : LoopState) (sk : Skin) : LoopState :=
  match sk.name with
  | none => { st with skinsAfter := st.skinsAfter ++ [sk] }
  | some nm =>
    let (rec, reqs) := processNamed net sk nm
    { records := st.records ++ [rec],
      writes := st.writes ++ [st.records ++ [rec]],
      skinsAfter := st.skinsAfter ++ [rec],
      requests := st.requests ++ reqs }

/-- `process_all_skins` (lines 215–296).  A missing or unparsable input file
is caught at the outer `try`, logged, and the function returns having made no
write and no request; otherwise the output file is initialised to `[]` and
every item is processed in order.  No path raises out of the function and the
`__main__` caller never sets an exit code, so the process status is success
in every case. -/
def process_all_skins (input : ReadOutcome) (net : Net) : Run :=
  match input with
  | .missing => ⟨[], [], [], [], true⟩
  | .invalidJson => ⟨[], [], [], [], true⟩
  | .ok skins =>
    let init : LoopState := ⟨[], [[]], [], []⟩
    let fin := skins.foldl (processStep net) init
    ⟨fin.records, fin.writes, fin.skinsAfter, fin.requests, true⟩

/-- The record produced for one catalog item, if any: `none` exactly when the
item has no `name` key. -/
def recOf (net : Net) (sk : Skin) : Option Skin :=
  sk.name.map fun nm => (processNamed net sk nm).1

/-- The state of one input item after the run: mutated if it was processed,
untouched if it was skipped. -/
def afterOf (net : Net) (sk : Skin) : Skin :=
  match sk.name with
  | none => sk
  | some nm => (processNamed net sk nm).1

/-- The checkpoint contents written while recording `new` on top of an
already-recorded `base`: one complete snapshot per appended record. -/
def writesFor (base new : List Skin) : List (List Skin) :=
  (List.range new.length).map fun k => base ++ new.take (k + 1)

/-! ## Helper accessors used by theorem statements -/

/-- Whether a Python computation returned normally. -/
def PyRes.isOk {α : Type} : PyRes α → Bool
  | .ok _ => true
  | .exn _ => false

/-- Look a key up in the dict of a successful result. -/
def resLookup (r : PyRes Dict) (k : String) : Option Value :=
  match r with
  | .ok d => d.lookup k
  | .exn _ => none

/-! ## Concrete fixtures (inputs for witnesses and counterexamples) -/

/-- A listing page embedding nameid `12345`. -/
def pageEx : String := "html Market_LoadOrderSpread( 12345 ); html"

/-- A fully well-formed histogram response: both prices, both graphs. -/
def histogramEx : String :=
  "\"highest_buy_order\":\"150\",\"lowest_sell_order\":\"200\",\"buy_order_graph\":[[1.5,2],[1.4,5]],\"sell_order_graph\":[[2.0,3]],x"

/-- A histogram response whose buy graph is malformed text while the sell
graph is a perfectly well-formed depth array. -/
def histogramBadBuy : String :=
  "\"highest_buy_order\":\"150\",\"lowest_sell_order\":\"200\",\"buy_order_graph\":zz]],\"sell_order_graph\":[[2.0,3]],x"

/-- A price-overview response with volume `42`. -/
def volumeEx : String := "ok,\"volume\":\"42\",rest"

/-- Oracle answering every fetch for hashname `"H"` well-formed. -/
def netRich : Net := fun url =>
  if url = listingUrlOf "H" then .ok pageEx
  else if url = histUrlOf "12345" then .ok histogramEx
  else if url = volUrlOf "H" then .ok volumeEx
  else .exn "unexpected URL"

/-- Oracle identical to `netRich` except that the histogram's buy graph is
malformed. -/
def netBadBuy : Net := fun url =>
  if url = listingUrlOf "H" then .ok pageEx
  else if url = histUrlOf "12345" then .ok histogramBadBuy
  else if url = volUrlOf "H" then .ok volumeEx
  else .exn "unexpected URL"

/-- Oracle on which every request raises a transport error. -/
def netDown : Net := fun _ => .exn "Connection error"

/-- The dict `item_data` builds for hashname `"H"` on `netRich`. -/
def dictEx : Dict :=
  match (item_data "H" netRich).1 with
  | .ok d => d
  | .exn _ => []

/-- A catalog item with a well-formed composite name. -/
def skinRedline : Skin := ⟨some "AK-47 | Redline", some 0, some 0, none⟩

/-- A catalog item whose name has no `" | "` separator. -/
def skinNoSep : Skin := ⟨some "Souvenir Package", none, none, none⟩

/-- A catalog item with no name key. -/
def skinNoName : Skin := ⟨none, some 1, none, none⟩

/-- URLs requested while processing one item. -/
def reqsOf (net : Net) (sk : Skin) : List String :=
  match sk.name with
  | none => []
  | some nm => (processNamed net sk nm).2

/-- The percent-encoded `" | "` delimiter of `get_hashname`, as characters. -/
def sepL : List Char := ['%', '2', '0', '%', '7', 'C', '%', '2', '0']

/-- Split a character list at the first occurrence of `sepL`, returning the
part before it and the part after it (used to invert `get_hashname`). -/
def splitSep : List Char → Option (List Char × List Char)
  | [] => none
  | c :: rest =>
    if startsWith sepL (c :: rest) then some ([], (c :: rest).drop 9)
    else
      match splitSep rest with
      | some (a, b) => some (c :: a, b)
      | none => none

/-- The raw StatTrak marker plus separating space whose percent-encoding
`get_hashname` prepends when `stat == 1`. -/
def stRaw : List Char := "StatTrak™ ".data

/-! ## Theorems -/

theorem processNamed_market_data (net : Net) (sk : Skin) (nm : String) :
    ((processNamed net sk nm).1).market_data.isSome = true := by
  simp only [processNamed]
  split
  · rfl
  · split
    · rfl
    · split <;> rfl

theorem processNamed_fields (net : Net) (sk : Skin) (nm : String) :
    ((processNamed net sk nm).1).fields = sk.fields := by
  simp only [processNamed]
  split
  · rfl
  · split
    · rfl
    · split <;> rfl

theorem processNamed_name (net : Net) (sk : Skin) (nm : String) :
    ((processNamed net sk nm).1).name = sk.name :=
  congrArg (fun p => p.1) (processNamed_fields net sk nm)

theorem writesFor_nil (base : List Skin) : writesFor base [] = [] := by
  simp [writesFor]

theorem writesFor_cons (base : List Skin) (r : Skin) (rest : List Skin) :
    writesFor base (r :: rest) = (base ++ [r]) :: writesFor (base ++ [r]) rest := by
  simp only [writesFor, List.length_cons, List.range_succ_eq_map, List.map_cons,
    List.map_map, List.take_succ_cons, List.take_zero]
  congr 1
  apply List.map_congr_left
  intro k _
  simp [Function.comp, List.take_succ_cons, List.append_assoc]

/-- Characterisation of the processing loop: starting from accumulator `st`,
folding over `skins` appends one record per named item, one checkpoint write
per record, the post-mutation state of every item, and the requests. -/
theorem foldl_processStep (net : Net) (skins : List Skin) : ∀ st : LoopState,
    skins.foldl (processStep net) st =
      { records := st.records ++ skins.filterMap (recOf net),
        writes := st.writes ++ writesFor st.records (skins.filterMap (recOf net)),
        skinsAfter := st.skinsAfter ++ skins.map (afterOf net),
        requests := st.requests ++ (skins.map (reqsOf net)).flatten } := by
  induction skins with
  | nil => intro st; simp [writesFor_nil]
  | cons sk rest ih =>
    intro st
    rcases hn : sk.name with _ | nm
    · rw [List.foldl_cons]
      have hstep : processStep net st sk = { st with skinsAfter := st.skinsAfter ++ [sk] } := by
        simp [processStep, hn]
      have h1 : recOf net sk = none := by simp [recOf, hn]
      have h2 : afterOf net sk = sk := by simp [afterOf, hn]
      have h3 : reqsOf net sk = [] := by simp [reqsOf, hn]
      rw [hstep, ih]
      simp [h1, h2, h3, List.filterMap_cons, List.append_assoc]
    · rw [List.foldl_cons]
      rcases hp : processNamed net sk nm with ⟨rec, reqs⟩
      have hstep : processStep net st sk =
          { records := st.records ++ [rec],
            writes := st.writes ++ [st.records ++ [rec]],
            skinsAfter := st.skinsAfter ++ [rec],
            requests := st.requests ++ reqs } := by
        simp [processStep, hn, hp]
      have h1 : recOf net sk = some rec := by simp [recOf, hn, hp]
      have h2 : afterOf net sk = rec := by simp [afterOf, hn, hp]
      have h3 : reqsOf net sk = reqs := by simp [reqsOf, hn, hp]
      rw [hstep, ih]
      simp only [h1, h2, h3, List.filterMap_cons, List.map_cons, List.flatten_cons,
        writesFor_cons]
      simp [List.append_assoc]

theorem records_characterisation (net : Net) (skins : List Skin) :
    (skins.filterMap (recOf net)).length = (skins.filter fun sk => sk.name.isSome).length ∧
    ((skins.filterMap (recOf net)).all fun r => r.market_data.isSome) = true ∧
    (skins.filterMap (recOf net)).map Skin.fields =
      (skins.filter fun sk => sk.name.isSome).map Skin.fields := by
  induction skins with
  | nil => exact ⟨rfl, rfl, rfl⟩
  | cons sk rest ih =>
    obtain ⟨ih1, ih2, ih3⟩ := ih
    rcases hn : sk.name with _ | nm
    · have h1 : recOf net sk = none := by simp [recOf, hn]
      refine ⟨?_, ?_, ?_⟩
      · simpa only [List.filterMap_cons, List.filter_cons, h1, hn, Option.isSome_none,
          Bool.false_eq_true, if_false] using ih1
      · simpa only [List.filterMap_cons, h1] using ih2
      · simpa only [List.filterMap_cons, List.filter_cons, h1, hn, Option.isSome_none,
          Bool.false_eq_true, if_false] using ih3
    · have h1 : recOf net sk = some ((processNamed net sk nm).1) := by simp [recOf, hn]
      refine ⟨?_, ?_, ?_⟩
      · simpa [List.filterMap_cons, List.filter_cons, h1, hn] using ih1
      · simpa [List.filterMap_cons, h1, processNamed_market_data] using ih2
      · simpa [List.filterMap_cons, List.filter_cons, h1, hn, processNamed_fields] using ih3

/-- C1: for every input catalog sequence, the batch yields exactly one
record per named item — carrying either the market snapshot or the
stringified cause of the exception — whatever the network does (so a
per-item failure neither aborts the batch nor drops the item), and items
missing the name key are the only ones that produce no record. -/
theorem batch_yields_one_record_per_named_item (skins : List Skin) (net : Net) :
    (process_all_skins (.ok skins) net).records.length =
      (skins.filter fun sk => sk.name.isSome).length ∧
    ((process_all_skins (.ok skins) net).records.all fun r => r.market_data.isSome) = true ∧
    (process_all_skins (.ok skins) net).records.map Skin.fields =
      (skins.filter fun sk => sk.name.isSome).map Skin.fields := by
  have h := foldl_processStep net skins ⟨[], [[]], [], []⟩
  have hr : (process_all_skins (.ok skins) net).records = skins.filterMap (recOf net) := by
    simp [process_all_skins, h]
  rw [hr]
  exact records_characterisation net skins

/-- C2: the checkpoint file is rewritten in full after every recorded item:
the sequence of file contents is exactly the sequence of prefixes of the
final record list — the initial empty array, then the first k records after
the k-th item completes — so after any completed item the file is a
complete, parseable snapshot holding one record per completed item. -/
theorem checkpoint_rewritten_complete_prefix (skins : List Skin) (net : Net) :
    (process_all_skins (.ok skins) net).writes =
      (List.range ((process_all_skins (.ok skins) net).records.length + 1)).map
        (fun k => (process_all_skins (.ok skins) net).records.take k) := by
  have h := foldl_processStep net skins ⟨[], [[]], [], []⟩
  have hr : (process_all_skins (.ok skins) net).records = skins.filterMap (recOf net) := by
    simp [process_all_skins, h]
  have hw : (process_all_skins (.ok skins) net).writes =
      [[]] ++ writesFor [] (skins.filterMap (recOf net)) := by
    simp [process_all_skins, h]
  rw [hr, hw]
  generalize skins.filterMap (recOf net) = recs
  simp only [List.range_succ_eq_map, List.map_cons, List.map_map, List.take_zero]
  congr 1

/-- C6 (counterexample): with the input file missing, the process still
terminates with a success status — the `FileNotFoundError` is caught and
logged and `__main__` never sets an exit code — contradicting the claim that
exit behaviour is non-success exactly when the input file is missing or
unparsable. -/
theorem input_error_exit_success_cex :
    (process_all_skins .missing netDown).exitSuccess = true ∧
    (process_all_skins .invalidJson netDown).exitSuccess = true := ⟨rfl, rfl⟩

/-- C6 (amended): if the input file is missing or not valid JSON, the run
aborts before any processing and before any network activity — no request,
no write, no record; but the process exit status is success in every case,
this one included, because the fatal input error is only logged. -/
theorem input_error_aborts_before_network (net : Net) (skins : List Skin) :
    (process_all_skins .missing net).requests = [] ∧
    (process_all_skins .missing net).writes = [] ∧
    (process_all_skins .missing net).records = [] ∧
    (process_all_skins .invalidJson net).requests = [] ∧
    (process_all_skins .invalidJson net).writes = [] ∧
    (process_all_skins .invalidJson net).records = [] ∧
    (process_all_skins .missing net).exitSuccess = true ∧
    (process_all_skins .invalidJson net).exitSuccess = true ∧
    (process_all_skins (.ok skins) net).exitSuccess = true := by
  refine ⟨rfl, rfl, rfl, rfl, rfl, rfl, rfl, rfl, ?_⟩
  simp [process_all_skins]

theorem afterOf_fields (net : Net) (sk : Skin) : (afterOf net sk).fields = sk.fields := by
  rcases hn : sk.name with _ | nm
  · simp [afterOf, hn]
  · simp [afterOf, hn, processNamed_fields]

theorem map_afterOf_fields (net : Net) (skins : List Skin) :
    (skins.map (afterOf net)).map Skin.fields = skins.map Skin.fields := by
  rw [List.map_map]
  exact List.map_congr_left fun sk _ => afterOf_fields net sk

theorem filterMap_recOf_eq_filter_after (net : Net) (skins : List Skin) :
    skins.filterMap (recOf net) =
      (skins.map (afterOf net)).filter fun sk => sk.name.isSome := by
  induction skins with
  | nil => rfl
  | cons sk rest ih =>
    rcases hn : sk.name with _ | nm
    · have h1 : recOf net sk = none := by simp [recOf, hn]
      have h2 : afterOf net sk = sk := by simp [afterOf, hn]
      simpa [List.filterMap_cons, List.filter_cons, h1, h2, hn] using ih
    · have h1 : recOf net sk = some ((processNamed net sk nm).1) := by simp [recOf, hn]
      have h2 : afterOf net sk = (processNamed net sk nm).1 := by simp [afterOf, hn]
      have h3 : ((processNamed net sk nm).1).name.isSome = true := by
        rw [processNamed_name, hn]; rfl
      simpa [List.filterMap_cons, List.filter_cons, h1, h2, h3] using ih

/-- C7 (counterexample): processing mutates the catalog item in place —
after the run the input list's element carries the written `market_data`
key, so it is not immutable once loaded — and the produced record is that
same mutated item. -/
theorem processed_item_mutation_cex :
    (process_all_skins (.ok [skinRedline]) netDown).skinsAfter ≠ [skinRedline] ∧
    (process_all_skins (.ok [skinRedline]) netDown).records =
      (process_all_skins (.ok [skinRedline]) netDown).skinsAfter := by
  constructor
  · decide
  · decide

/-- C7 (amended): processing leaves every item's pre-existing fields
(`name`, `wear`, `stat`) unchanged, but stores the `market_data` result into
the item itself, and the records are exactly the mutated items of the named
inputs (the record aliases the source item rather than copying it). -/
theorem processing_preserves_fields_but_mutates (skins : List Skin) (net : Net) :
    (process_all_skins (.ok skins) net).skinsAfter.map Skin.fields =
      skins.map Skin.fields ∧
    (process_all_skins (.ok skins) net).records =
      (process_all_skins (.ok skins) net).skinsAfter.filter fun sk => sk.name.isSome := by
  have h := foldl_processStep net skins ⟨[], [[]], [], []⟩
  have ha : (process_all_skins (.ok skins) net).skinsAfter = skins.map (afterOf net) := by
    simp [process_all_skins, h]
  have hr : (process_all_skins (.ok skins) net).records = skins.filterMap (recOf net) := by
    simp [process_all_skins, h]
  rw [ha, hr]
  exact ⟨map_afterOf_fields net skins, filterMap_recOf_eq_filter_after net skins⟩

/-- C9: an item whose `name` is present but has no `" | "` separator is not
skipped: `skin_names[1]` raises `IndexError`, the per-item handler catches
it, and the item is recorded as an error record (`str(e)` is
`"list index out of range"`), with the checkpoint rewritten accordingly. -/
theorem missing_separator_recorded_not_skipped (sk : Skin) (nm : String) (net : Net)
    (hn : sk.name = some nm) (hs : (pySplit nm " | ").length ≤ 1) :
    (process_all_skins (.ok [sk]) net).records =
      [{ sk with market_data := some (.exn "list index out of range") }] ∧
    (process_all_skins (.ok [sk]) net).writes =
      [[], [{ sk with market_data := some (.exn "list index out of range") }]] := by
  have hp : processNamed net sk nm =
      ({ sk with market_data := some (.exn "list index out of range") }, []) := by
    have h2 : (pySplit nm " | ")[1]? = none := by
      rw [List.getElem?_eq_none_iff]; exact hs
    simp [processNamed, h2]
  have h := foldl_processStep net [sk] ⟨[], [[]], [], []⟩
  have h1 : recOf net sk = some ((processNamed net sk nm).1) := by simp [recOf, hn]
  rw [hp] at h1
  constructor
  · simp [process_all_skins, h, List.filterMap_cons, h1]
  · simp [process_all_skins, h, List.filterMap_cons, h1, writesFor_cons, writesFor_nil]

/-- C9 (witness): the theorem applied to a concrete separator-free item. -/
theorem missing_separator_recorded_witness :
    (process_all_skins (.ok [skinNoSep]) netDown).records =
      [{ skinNoSep with market_data := some (.exn "list index out of range") }] ∧
    (process_all_skins (.ok [skinNoSep]) netDown).writes =
      [[], [{ skinNoSep with market_data := some (.exn "list index out of range") }]] :=
  missing_separator_recorded_not_skipped skinNoSep "Souvenir Package" netDown rfl (by decide)

theorem item_data_ok_shape (hashname : String) (net : Net) (d : Dict)
    (h : (item_data hashname net).1 = .ok d) :
    ∃ qb qs bo so vol nid,
      d = [("buy_req", Value.num qb), ("sell_req", Value.num qs),
           ("buy_orders", Value.orders bo), ("sell_orders", Value.orders so),
           ("volume", vol), ("nameid", Value.vstr nid)] := by
  simp only [item_data] at h
  split at h
  · simp at h
  · split at h
    · simp at h
    · split at h
      · simp at h
      · split at h
        · simp at h
        · split at h <;>
          · injection h with h2
            exact ⟨_, _, _, _, _, _, h2.symm⟩

/-- C10: every dict a successful `item_data` call returns carries all six
keys `buy_req`, `sell_req`, `buy_orders`, `sell_orders`, `volume`, `nameid`
— partial failures never remove a key, they only make the order lists empty
or the volume `None`. -/
theorem item_data_success_has_all_keys (hashname : String) (net : Net) (d : Dict)
    (h : (item_data hashname net).1 = .ok d) :
    (d.lookup "buy_req").isSome = true ∧ (d.lookup "sell_req").isSome = true ∧
    (d.lookup "buy_orders").isSome = true ∧ (d.lookup "sell_orders").isSome = true ∧
    (d.lookup "volume").isSome = true ∧ (d.lookup "nameid").isSome = true := by
  obtain ⟨qb, qs, bo, so, vol, nid, rfl⟩ := item_data_ok_shape hashname net d h
  exact ⟨rfl, rfl, rfl, rfl, rfl, rfl⟩

/-- C10 (witness): the concrete fully-successful fetch for hashname `"H"`. -/
theorem item_data_success_has_all_keys_witness :
    (item_data "H" netRich).1 = .ok dictEx ∧
    ((dictEx.lookup "buy_req").isSome = true ∧ (dictEx.lookup "sell_req").isSome = true ∧
     (dictEx.lookup "buy_orders").isSome = true ∧ (dictEx.lookup "sell_orders").isSome = true ∧
     (dictEx.lookup "volume").isSome = true ∧ (dictEx.lookup "nameid").isSome = true) :=
  ⟨rfl, item_data_success_has_all_keys "H" netRich dictEx rfl⟩

/-- C3 (counterexample): on a histogram response whose buy graph is malformed
but whose sell graph parses perfectly, `item_data` records an empty depth
list for the *sell* side as well — the single `try` around both `eval`s
empties both sides, not only the failing one. -/
theorem order_graph_parse_failure_cex :
    (evalGraph (graphSlice histogramBadBuy "\"sell_order_graph\":")).isSome = true ∧
    evalGraph (graphSlice histogramBadBuy "\"buy_order_graph\":") = none ∧
    (item_data "H" netBadBuy).1.isOk = true ∧
    resLookup (item_data "H" netBadBuy).1 "sell_orders" = some (.orders []) ∧
    resLookup (item_data "H" netBadBuy).1 "buy_orders" = some (.orders []) :=
  ⟨rfl, rfl, rfl, rfl, rfl⟩

/-- C3 (amended): whenever the nameid resolution, the histogram fetch and
both mandatory price fields succeed but either depth array fails to parse,
`item_data` still succeeds and still carries `highest_buy`/`lowest_sell`
prices, but records empty depth sequences for *both* sides (the failure
never aborts the item). -/
theorem order_graph_parse_failure_both_sides
    (hashname : String) (net : Net) (nid : Int) (orderData : String) (qb qs : ℚ)
    (h1 : get_nameid hashname net = .ok nid)
    (h2 : net (histUrlOf (toString nid)) = .ok orderData)
    (h3 : extractScaled orderData "\"highest_buy_order\":\"" = .ok qb)
    (h4 : extractScaled orderData "\"lowest_sell_order\":\"" = .ok qs)
    (h5 : evalGraph (graphSlice orderData "\"buy_order_graph\":") = none ∨
          evalGraph (graphSlice orderData "\"sell_order_graph\":") = none) :
    (item_data hashname net).1.isOk = true ∧
    resLookup (item_data hashname net).1 "buy_req" = some (.num qb) ∧
    resLookup (item_data hashname net).1 "sell_req" = some (.num qs) ∧
    resLookup (item_data hashname net).1 "buy_orders" = some (.orders []) ∧
    resLookup (item_data hashname net).1 "sell_orders" = some (.orders []) := by
  have hpair :
      (match evalGraph (graphSlice orderData "\"buy_order_graph\":"),
             evalGraph (graphSlice orderData "\"sell_order_graph\":") with
       | some bg, some sg => (bg, sg)
       | _, _ => (([] : List (ℚ × Int)), ([] : List (ℚ × Int)))) = ([], []) := by
    rcases h5 with h5 | h5
    · rw [h5]
    · cases hb : evalGraph (graphSlice orderData "\"buy_order_graph\":") <;> rw [h5]
  simp only [item_data, h1, h2, h3, h4, hpair]
  exact ⟨rfl, rfl, rfl, rfl, rfl⟩

/-- C3 (witness): the amended theorem applied to the concrete malformed-buy
histogram. -/
theorem order_graph_parse_failure_witness :
    (item_data "H" netBadBuy).1.isOk = true ∧
    resLookup (item_data "H" netBadBuy).1 "buy_req" = some (.num (((150 : Int) : ℚ) / 100)) ∧
    resLookup (item_data "H" netBadBuy).1 "sell_req" = some (.num (((200 : Int) : ℚ) / 100)) ∧
    resLookup (item_data "H" netBadBuy).1 "buy_orders" = some (.orders []) ∧
    resLookup (item_data "H" netBadBuy).1 "sell_orders" = some (.orders []) :=
  order_graph_parse_failure_both_sides "H" netBadBuy 12345 histogramBadBuy
    (((150 : Int) : ℚ) / 100) (((200 : Int) : ℚ) / 100) rfl rfl rfl rfl (Or.inl rfl)

/-- C4: the 429 branch of `RateLimitedClient.get` has no retry bound at all:
however many consecutive 429 rejections the endpoint produces, the code is
still retrying (one dispatch per rejection) and never surfaces any failure
to the caller — the recursion simply never terminates on a persistently
throttling endpoint, instead of stopping after a maximum retry count with a
distinct error as the specification requires. -/
theorem rate_limit_retry_unbounded (delays : Nat → ℚ) (last dur : ℚ) (n : Nat) :
    ∀ (now : ℚ) (k : Nat),
      (client_get delays last now k (List.replicate n (.err429 dur))).result = .exhausted ∧
      (client_get delays last now k (List.replicate n (.err429 dur))).dispatches.length = n := by
  induction n with
  | zero => intro now k; exact ⟨rfl, rfl⟩
  | succ n ih =>
    intro now k
    have h := ih (wait_if_needed last now (delays k) + dur + 5) (k + 1)
    simp only [List.replicate_succ, client_get]
    exact ⟨h.1, by simp [h.2]⟩

theorem wait_if_needed_ge_now (last now delay : ℚ) : now ≤ wait_if_needed last now delay := by
  unfold wait_if_needed
  split
  · split
    · linarith
    · exact le_refl now
  · exact le_refl now

theorem wait_if_needed_ge_spacing (last now delay : ℚ) (hlast : 0 < last) :
    last + delay ≤ wait_if_needed last now delay := by
  unfold wait_if_needed
  rw [if_pos hlast]
  split
  · linarith
  · linarith

/-- Every dispatch of a `get` call is spaced at least the minimum drawn delay
after the previously recorded request time (when one is recorded). -/
theorem client_get_dispatch_spacing (delays : Nat → ℚ) (minD last : ℚ)
    (hlast : 0 < last) (hds : ∀ j, minD ≤ delays j) (attempts : List Attempt) :
    ∀ (now : ℚ) (k : Nat),
      ∀ t ∈ (client_get delays last now k attempts).dispatches, last + minD ≤ t := by
  induction attempts with
  | nil => intro now k t ht; simp [client_get] at ht
  | cons a rest ih =>
    intro now k t ht
    have hd : last + minD ≤ wait_if_needed last now (delays k) :=
      le_trans (by linarith [hds k]) (wait_if_needed_ge_spacing last now (delays k) hlast)
    cases a with
    | ok dur =>
      simp only [client_get, List.mem_singleton] at ht
      exact ht ▸ hd
    | errOther dur =>
      simp only [client_get, List.mem_singleton] at ht
      exact ht ▸ hd
    | err429 dur =>
      simp only [client_get, List.mem_cons] at ht
      rcases ht with rfl | ht
      · exact hd
      · exact ih (wait_if_needed last now (delays k) + dur + 5) (k + 1) t ht

/-- After a `get` call that returns a response, the recorded
`last_request_time` is positive and bounds every dispatch of the call from
above. -/
theorem client_get_ok_newLast (delays : Nat → ℚ) (last : ℚ) (attempts : List Attempt)
    (hdur : ∀ a ∈ attempts, 0 ≤ a.dur) :
    ∀ (now : ℚ) (k : Nat), 0 < now →
      (client_get delays last now k attempts).result = .ok →
      0 < (client_get delays last now k attempts).newLast ∧
      now ≤ (client_get delays last now k attempts).newLast ∧
      ∀ t ∈ (client_get delays last now k attempts).dispatches,
        t ≤ (client_get delays last now k attempts).newLast := by
  induction attempts with
  | nil => intro now k hnow h; simp [client_get] at h
  | cons a rest ih =>
    intro now k hnow h
    cases a with
    | errOther dur => simp [client_get] at h
    | ok dur =>
      have hdn : now ≤ wait_if_needed last now (delays k) := wait_if_needed_ge_now ..
      have hd0 : 0 ≤ dur := hdur (Attempt.ok dur) (List.mem_cons_self _ _)
      refine ⟨by simp only [client_get]; linarith, by simp only [client_get]; linarith, ?_⟩
      intro t ht
      simp only [client_get, List.mem_singleton] at ht ⊢
      subst ht; linarith
    | err429 dur =>
      have hdn : now ≤ wait_if_needed last now (delays k) := wait_if_needed_ge_now ..
      have hd0 : 0 ≤ dur := hdur (Attempt.err429 dur) (List.mem_cons_self _ _)
      have hrest : ∀ a ∈ rest, 0 ≤ a.dur := fun a ha => hdur a (List.mem_cons_of_mem _ ha)
      have hnow2 : 0 < wait_if_needed last now (delays k) + dur + 5 := by linarith
      simp only [client_get] at h ⊢
      obtain ⟨h1, h2, h3⟩ :=
        ih hrest (wait_if_needed last now (delays k) + dur + 5) (k + 1) hnow2 h
      refine ⟨h1, by linarith, ?_⟩
      intro t ht
      rcases List.mem_cons.mp ht with rfl | ht
      · linarith
      · exact h3 t ht

/-- C8 (amended): when the earlier of two consecutive `get` calls through a
limiter configured with `min_delay = 1.5` returns a response, every dispatch
of the later call happens at least `1.5` time units after every dispatch of
the earlier one.  (A call that raises leaves `last_request_time` untouched,
so the guarantee does not extend past failed requests.) -/
theorem dispatch_gap_after_success
    (delays₁ delays₂ : Nat → ℚ) (last₀ now₁ now₂ : ℚ) (as₁ as₂ : List Attempt) (k₁ k₂ : Nat)
    (hnow : 0 < now₁)
    (hdur₁ : ∀ a ∈ as₁, 0 ≤ a.dur)
    (hds₂ : ∀ j, 3/2 ≤ delays₂ j)
    (hok : (client_get delays₁ last₀ now₁ k₁ as₁).result = .ok) :
    ∀ t₁ ∈ (client_get delays₁ last₀ now₁ k₁ as₁).dispatches,
      ∀ t₂ ∈ (client_get delays₂ (client_get delays₁ last₀ now₁ k₁ as₁).newLast
                now₂ k₂ as₂).dispatches,
        t₁ + 3/2 ≤ t₂ := by
  intro t₁ ht₁ t₂ ht₂
  obtain ⟨hL, _, hub⟩ := client_get_ok_newLast delays₁ last₀ as₁ hdur₁ now₁ k₁ hnow hok
  have h₂ := client_get_dispatch_spacing delays₂ (3/2)
    ((client_get delays₁ last₀ now₁ k₁ as₁).newLast) hL hds₂ as₂ now₂ k₂ t₂ ht₂
  have h₁ := hub t₁ ht₁
  linarith

/-- C8 (counterexample): a request that raises a (non-429) transport error
does not update `last_request_time`; with a fresh limiter (minDelay 1.5,
maxDelay 3.0, drawn delay 2), a first request dispatched at time 10 raises,
and the next request dispatches at time 10 as well — a gap of 0 < 1.5. -/
theorem dispatch_gap_cex :
    (client_get (fun _ => 2) 0 10 0 [.errOther 1]).dispatches = [10] ∧
    (client_get (fun _ => 2) 0 10 0 [.errOther 1]).result = .raised ∧
    (client_get (fun _ => 2) (client_get (fun _ => 2) 0 10 0 [.errOther 1]).newLast
       10 0 [.ok 1]).dispatches = [10] ∧
    ¬ ((10 : ℚ) + 3/2 ≤ 10) := by
  refine ⟨?_, rfl, ?_, by norm_num⟩
  · norm_num [client_get, wait_if_needed]
  · norm_num [client_get, wait_if_needed]

/-- C8 (witness): the amended theorem applied to a concrete pair of
successful calls — dispatches at times 1 and 4, gap `3 ≥ 1.5`. -/
theorem dispatch_gap_witness :
    (client_get (fun _ => 2) 0 1 0 [.ok 1]).newLast = 2 ∧
    (client_get (fun _ => 2) 2 2 0 [.ok 1]).dispatches = [4] ∧
    ((1 : ℚ) + 3/2 ≤ 4) := by
  have e₁ : (client_get (fun _ => 2) 0 1 0 [.ok 1]).dispatches = [1] := by
    norm_num [client_get, wait_if_needed]
  have e₂ : (client_get (fun _ => 2) 0 1 0 [.ok 1]).newLast = 2 := by
    norm_num [client_get, wait_if_needed]
  have e₃ : (client_get (fun _ => 2) 2 2 0 [.ok 1]).dispatches = [4] := by
    norm_num [client_get, wait_if_needed]
  have h := dispatch_gap_after_success (fun _ => 2) (fun _ => 2) 0 1 2 [.ok 1] [.ok 1] 0 0
    one_pos
    (by rintro a ha; simp only [List.mem_singleton] at ha; subst ha; norm_num [Attempt.dur])
    (fun j => by norm_num)
    (by norm_num [client_get, wait_if_needed])
  refine ⟨e₂, e₃, ?_⟩
  have hm₁ : (1 : ℚ) ∈ (client_get (fun _ => 2) 0 1 0 [.ok 1]).dispatches := by
    rw [e₁]; exact List.mem_singleton.mpr rfl
  have hm₂ : (4 : ℚ) ∈ (client_get (fun _ => 2)
      (client_get (fun _ => 2) 0 1 0 [.ok 1]).newLast 2 0 [.ok 1]).dispatches := by
    rw [e₂, e₃]; exact List.mem_singleton.mpr rfl
  exact h 1 hm₁ 4 hm₂

/-! ### Hashname builder: inversion lemmas (claim C5) -/

theorem startsWith_append (p t : List Char) : startsWith p (p ++ t) = true := by
  induction p with
  | nil => rfl
  | cons a p ih => simp [startsWith, ih]

theorem startsWith_iff (p l : List Char) :
    startsWith p l = true ↔ ∃ t, l = p ++ t := by
  induction p generalizing l with
  | nil => simp [startsWith]
  | cons a p ih =>
    cases l with
    | nil => simp [startsWith]
    | cons b l =>
      simp only [startsWith, Bool.and_eq_true, decide_eq_true_eq, ih]
      constructor
      · rintro ⟨rfl, t, rfl⟩; exact ⟨t, rfl⟩
      · rintro ⟨t, h⟩
        injection h with h1 h2
        exact ⟨h1.symm, t, h2⟩

theorem startsWith_comparable (p₁ : List Char) : ∀ (p₂ l : List Char),
    startsWith p₁ l = true → startsWith p₂ l = true →
    startsWith p₁ p₂ = true ∨ startsWith p₂ p₁ = true := by
  induction p₁ with
  | nil => intro p₂ l _ _; left; rfl
  | cons a p₁ ih =>
    intro p₂ l h₁ h₂
    cases p₂ with
    | nil => right; rfl
    | cons b p₂ =>
      cases l with
      | nil => simp [startsWith] at h₁
      | cons c l =>
        simp only [startsWith, Bool.and_eq_true, decide_eq_true_eq] at h₁ h₂ ⊢
        obtain ⟨rfl, h₁⟩ := h₁
        obtain ⟨rfl, h₂⟩ := h₂
        rcases ih p₂ l h₁ h₂ with h | h
        · exact Or.inl ⟨rfl, h⟩
        · exact Or.inr ⟨rfl, h⟩

theorem encL_append (a b : List Char) : encL (a ++ b) = encL a ++ encL b := by
  induction a with
  | nil => rfl
  | cons c a ih => simp [encL, ih]

theorem encL_inj : ∀ {a b : List Char}, '%' ∉ a → '%' ∉ b → encL a = encL b → a = b := by
  intro a
  induction a with
  | nil =>
    intro b _ hb h
    cases b with
    | nil => rfl
    | cons d b' =>
      exfalso
      by_cases hd : d = ' ' <;> simp [encL, hd] at h
  | cons c a' ih =>
    intro b ha hb h
    have hc' : c ≠ '%' := fun hcc => ha (hcc ▸ List.mem_cons_self c a')
    have ha' : '%' ∉ a' := fun hm => ha (List.mem_cons_of_mem c hm)
    cases b with
    | nil =>
      exfalso
      by_cases hc : c = ' ' <;> simp [encL, hc] at h
    | cons d b' =>
      have hd' : d ≠ '%' := fun hdd => hb (hdd ▸ List.mem_cons_self d b')
      have hb' : '%' ∉ b' := fun hm => hb (List.mem_cons_of_mem d hm)
      by_cases hc : c = ' ' <;> by_cases hd : d = ' '
      · subst hc; subst hd
        simp only [encL, if_pos rfl, List.cons_append, List.nil_append] at h
        injection h with _ h; injection h with _ h; injection h with _ h
        rw [ih ha' hb' h]
      · subst hc
        simp only [encL, if_pos rfl, if_neg hd, List.cons_append, List.nil_append] at h
        injection h with h1 _
        exact absurd h1.symm hd'
      · subst hd
        simp only [encL, if_pos rfl, if_neg hc, List.cons_append, List.nil_append] at h
        injection h with h1 _
        exact absurd h1 hc'
      · simp only [encL, if_neg hc, if_neg hd, List.cons_append, List.nil_append] at h
        injection h with h1 h2
        rw [h1, ih ha' hb' h2]

theorem encL_percent_free_head (W t : List Char) (hW : '%' ∉ W) :
    startsWith ['%', '7'] (encL W ++ sepL ++ t) = false := by
  cases W with
  | nil => simp [encL, sepL, startsWith]
  | cons c W' =>
    by_cases hc : c = ' '
    · subst hc; simp [encL, sepL, startsWith]
    · have hc' : c ≠ '%' := fun hcc => hW (hcc ▸ List.mem_cons_self c W')
      simp [encL, if_neg hc, startsWith, Ne.symm hc']

theorem not_sw_sepL_tail (l : List Char) (h : startsWith ['%', '7'] l = false) :
    startsWith ['%', '7', 'C', '%', '2', '0'] l = false := by
  cases l with
  | nil => rfl
  | cons a l' =>
    cases l' with
    | nil => simp [startsWith]
    | cons b l'' =>
      by_cases h1 : ('%' : Char) = a
      · by_cases h2 : ('7' : Char) = b
        · exfalso; rw [← h1, ← h2] at h; simp [startsWith] at h
        · simp [startsWith, h2]
      · simp [startsWith, h1]

theorem splitSep_cons_pos (c : Char) (l : List Char)
    (h : startsWith sepL (c :: l) = true) :
    splitSep (c :: l) = some ([], (c :: l).drop 9) := by
  simp [splitSep, h]

theorem splitSep_cons_neg (c : Char) (l : List Char)
    (h : startsWith sepL (c :: l) = false) :
    splitSep (c :: l) =
      match splitSep l with
      | some (a, b) => some (c :: a, b)
      | none => none := by
  simp [splitSep, h]

theorem splitSep_encL (W : List Char) (hW : '%' ∉ W) (t : List Char) :
    splitSep (encL W ++ sepL ++ t) = some (encL W, t) := by
  induction W with
  | nil =>
    have hsw : startsWith sepL (sepL ++ t) = true := startsWith_append sepL t
    have h9 : (sepL ++ t).drop 9 = t := by simp [sepL]
    simpa [encL, sepL, h9] using splitSep_cons_pos '%'
      (['2', '0', '%', '7', 'C', '%', '2', '0'] ++ t) (by simpa [sepL] using hsw)
  | cons c W' ih =>
    have hW' : '%' ∉ W' := fun hm => hW (List.mem_cons_of_mem c hm)
    have ihW := ih hW'
    by_cases hc : c = ' '
    · subst hc
      have h7 : startsWith ['%', '7'] (encL W' ++ sepL ++ t) = false :=
        encL_percent_free_head W' t hW'
      have hno : startsWith sepL ('%' :: '2' :: '0' :: (encL W' ++ sepL ++ t)) = false := by
        simp only [sepL, startsWith, decide_True, Bool.true_and]
        exact not_sw_sepL_tail _ h7
      have h2 : startsWith sepL ('2' :: '0' :: (encL W' ++ sepL ++ t)) = false := by
        simp [sepL, startsWith]
      have h3 : startsWith sepL ('0' :: (encL W' ++ sepL ++ t)) = false := by
        simp [sepL, startsWith]
      have e1 := splitSep_cons_neg '%' ('2' :: '0' :: (encL W' ++ sepL ++ t)) hno
      have e2 := splitSep_cons_neg '2' ('0' :: (encL W' ++ sepL ++ t)) h2
      have e3 := splitSep_cons_neg '0' (encL W' ++ sepL ++ t) h3
      show splitSep ('%' :: '2' :: '0' :: (encL W' ++ sepL ++ t)) =
        some ('%' :: '2' :: '0' :: encL W', t)
      rw [e1, e2, e3, ihW]
    · have hc' : c ≠ '%' := fun hcc => hW (hcc ▸ List.mem_cons_self c W')
      have hno : startsWith sepL (c :: (encL W' ++ sepL ++ t)) = false := by
        simp [sepL, startsWith, Ne.symm hc']
      have e1 := splitSep_cons_neg c (encL W' ++ sepL ++ t) hno
      simp only [encL, if_neg hc, List.cons_append, List.nil_append]
      rw [e1, ihW]

theorem float_conditions_some (e : Int) (he : 0 ≤ e ∧ e ≤ 4) :
    ∃ u, float_conditions e = some u := by
  have h : e = 0 ∨ e = 1 ∨ e = 2 ∨ e = 3 ∨ e = 4 := by omega
  rcases h with rfl | rfl | rfl | rfl | rfl <;> exact ⟨_, rfl⟩

theorem suffix_determines_wear (e₁ e₂ : Int)
    (he₁ : 0 ≤ e₁ ∧ e₁ ≤ 4) (he₂ : 0 ≤ e₂ ∧ e₂ ≤ 4) (u₁ u₂ : String)
    (h₁ : float_conditions e₁ = some u₁) (h₂ : float_conditions e₂ = some u₂)
    (x y : List Char) (heq : x ++ u₁.data = y ++ u₂.data) :
    e₁ = e₂ ∧ u₁ = u₂ := by
  have hrev : u₁.data.reverse ++ x.reverse = u₂.data.reverse ++ y.reverse := by
    have h := congrArg List.reverse heq
    simpa [List.reverse_append] using h
  have hsw₁ : startsWith u₁.data.reverse (u₂.data.reverse ++ y.reverse) = true := by
    rw [← hrev]; exact startsWith_append ..
  have hsw₂ : startsWith u₂.data.reverse (u₂.data.reverse ++ y.reverse) = true :=
    startsWith_append ..
  have hcomp := startsWith_comparable _ _ _ hsw₁ hsw₂
  have d₁ : e₁ = 0 ∨ e₁ = 1 ∨ e₁ = 2 ∨ e₁ = 3 ∨ e₁ = 4 := by omega
  have d₂ : e₂ = 0 ∨ e₂ = 1 ∨ e₂ = 2 ∨ e₂ = 3 ∨ e₂ = 4 := by omega
  rcases d₁ with rfl | rfl | rfl | rfl | rfl <;> rcases d₂ with rfl | rfl | rfl | rfl | rfl <;>
    · injection h₁ with hu₁
      injection h₂ with hu₂
      subst hu₁
      subst hu₂
      first
      | exact ⟨rfl, rfl⟩
      | (exfalso; revert hcomp; decide)

theorem pyReplaceSpace_data (s : String) : (pyReplaceSpace s).data = encL s.data := rfl

theorem sep_data : ("%20%7C%20" : String).data = sepL := by decide

theorem encL_stRaw : ("StatTrak™%20" : String).data = encL stRaw := by decide

theorem stRaw_percent_free : '%' ∉ stRaw := by decide

/-- Core inversion: two fully assembled hashnames over `%`-free components
agree only if all their components agree. -/
theorem hashname_core (W₁ W₂ : List Char) (s₁ s₂ u₁ u₂ : String) (e₁ e₂ : Int)
    (hW₁ : '%' ∉ W₁) (hW₂ : '%' ∉ W₂) (hs₁ : '%' ∉ s₁.data) (hs₂ : '%' ∉ s₂.data)
    (he₁ : 0 ≤ e₁ ∧ e₁ ≤ 4) (he₂ : 0 ≤ e₂ ∧ e₂ ≤ 4)
    (hu₁ : float_conditions e₁ = some u₁) (hu₂ : float_conditions e₂ = some u₂)
    (heq : (encL W₁ ++ sepL) ++ (encL s₁.data ++ u₁.data) =
           (encL W₂ ++ sepL) ++ (encL s₂.data ++ u₂.data)) :
    W₁ = W₂ ∧ s₁ = s₂ ∧ e₁ = e₂ := by
  have hsp := congrArg splitSep heq
  rw [splitSep_encL W₁ hW₁, splitSep_encL W₂ hW₂] at hsp
  have hpair := Option.some.inj hsp
  injection hpair with hW hT
  obtain ⟨he, hu⟩ := suffix_determines_wear e₁ e₂ he₁ he₂ u₁ u₂ hu₁ hu₂ _ _ hT
  subst hu
  have hs : encL s₁.data = encL s₂.data := List.append_cancel_right hT
  exact ⟨encL_inj hW₁ hW₂ hW, String.ext (encL_inj hs₁ hs₂ hs), he⟩

/-- C5 (amended): over weapon and skin names that contain no `%` character
and weapons not already starting with the raw `StatTrak™ ` marker, with
wearTier in 0–4 and specialFlag in 0 or 1, `get_hashname` is deterministic
and injective: two hashnames agree exactly when all four inputs agree.
(Without those restrictions the claim fails, see the counterexample.) -/
theorem hashname_deterministic_and_injective
    (w₁ s₁ w₂ s₂ : String) (e₁ e₂ b₁ b₂ : Int)
    (hw₁ : '%' ∉ w₁.data) (hs₁ : '%' ∉ s₁.data)
    (hw₂ : '%' ∉ w₂.data) (hs₂ : '%' ∉ s₂.data)
    (hst₁ : startsWith stRaw w₁.data = false)
    (hst₂ : startsWith stRaw w₂.data = false)
    (he₁ : 0 ≤ e₁ ∧ e₁ ≤ 4) (he₂ : 0 ≤ e₂ ∧ e₂ ≤ 4)
    (hb₁ : b₁ = 0 ∨ b₁ = 1) (hb₂ : b₂ = 0 ∨ b₂ = 1) :
    get_hashname w₁ s₁ e₁ b₁ = get_hashname w₂ s₂ e₂ b₂ ↔
      (w₁ = w₂ ∧ s₁ = s₂ ∧ e₁ = e₂ ∧ b₁ = b₂) := by
  obtain ⟨u₁, hu₁⟩ := float_conditions_some e₁ he₁
  obtain ⟨u₂, hu₂⟩ := float_conditions_some e₂ he₂
  have h01 : ¬ ((0 : Int) = 1) := by decide
  have hp₁ : '%' ∉ stRaw ++ w₁.data := by
    intro h; rcases List.mem_append.mp h with h | h
    exacts [stRaw_percent_free h, hw₁ h]
  have hp₂ : '%' ∉ stRaw ++ w₂.data := by
    intro h; rcases List.mem_append.mp h with h | h
    exacts [stRaw_percent_free h, hw₂ h]
  refine ⟨fun heq => ?_, fun h => by obtain ⟨rfl, rfl, rfl, rfl⟩ := h; rfl⟩
  rcases hb₁ with rfl | rfl <;> rcases hb₂ with rfl | rfl
  · -- stat 0, stat 0
    simp only [get_hashname, hu₁, hu₂, if_neg h01] at heq
    have heq2 : (encL w₁.data ++ sepL) ++ (encL s₁.data ++ u₁.data) =
        (encL w₂.data ++ sepL) ++ (encL s₂.data ++ u₂.data) := by
      have h := congrArg String.data (Option.some.inj heq)
      simpa [String.data_append, pyReplaceSpace_data, sep_data, List.append_assoc] using h
    obtain ⟨hW, hs, he⟩ :=
      hashname_core _ _ _ _ _ _ _ _ hw₁ hw₂ hs₁ hs₂ he₁ he₂ hu₁ hu₂ heq2
    exact ⟨String.ext hW, hs, he, rfl⟩
  · -- stat 0, stat 1
    simp only [get_hashname, hu₁, hu₂, if_neg h01, if_pos rfl] at heq
    have heq2 : (encL w₁.data ++ sepL) ++ (encL s₁.data ++ u₁.data) =
        (encL (stRaw ++ w₂.data) ++ sepL) ++ (encL s₂.data ++ u₂.data) := by
      have h := congrArg String.data (Option.some.inj heq)
      simpa [String.data_append, pyReplaceSpace_data, sep_data, encL_stRaw, encL_append,
        List.append_assoc] using h
    obtain ⟨hW, hs, he⟩ :=
      hashname_core _ _ _ _ _ _ _ _ hw₁ hp₂ hs₁ hs₂ he₁ he₂ hu₁ hu₂ heq2
    have hsw : startsWith stRaw w₁.data = true := (startsWith_iff _ _).mpr ⟨w₂.data, hW⟩
    rw [hst₁] at hsw
    cases hsw
  · -- stat 1, stat 0
    simp only [get_hashname, hu₁, hu₂, if_neg h01, if_pos rfl] at heq
    have heq2 : (encL (stRaw ++ w₁.data) ++ sepL) ++ (encL s₁.data ++ u₁.data) =
        (encL w₂.data ++ sepL) ++ (encL s₂.data ++ u₂.data) := by
      have h := congrArg String.data (Option.some.inj heq)
      simpa [String.data_append, pyReplaceSpace_data, sep_data, encL_stRaw, encL_append,
        List.append_assoc] using h
    obtain ⟨hW, hs, he⟩ :=
      hashname_core _ _ _ _ _ _ _ _ hp₁ hw₂ hs₁ hs₂ he₁ he₂ hu₁ hu₂ heq2
    have hsw : startsWith stRaw w₂.data = true := (startsWith_iff _ _).mpr ⟨w₁.data, hW.symm⟩
    rw [hst₂] at hsw
    cases hsw
  · -- stat 1, stat 1
    simp only [get_hashname, hu₁, hu₂, if_pos rfl] at heq
    have heq2 : (encL (stRaw ++ w₁.data) ++ sepL) ++ (encL s₁.data ++ u₁.data) =
        (encL (stRaw ++ w₂.data) ++ sepL) ++ (encL s₂.data ++ u₂.data) := by
      have h := congrArg String.data (Option.some.inj heq)
      simpa [String.data_append, pyReplaceSpace_data, sep_data, encL_stRaw, encL_append,
        List.append_assoc] using h
    obtain ⟨hW, hs, he⟩ :=
      hashname_core _ _ _ _ _ _ _ _ hp₁ hp₂ hs₁ hs₂ he₁ he₂ hu₁ hu₂ heq2
    exact ⟨String.ext (List.append_cancel_left hW), hs, he, rfl⟩

/-- C5 (counterexample): `get_hashname` is not injective over arbitrary
distinct tuples — a weapon containing a literal space collides with one
containing a literal `%20`, and a weapon beginning with the raw
`StatTrak™ ` marker at `stat = 0` collides with the unprefixed weapon at
`stat = 1`. -/
theorem hashname_injectivity_cex :
    get_hashname "A B" "X" 0 0 = get_hashname "A%20B" "X" 0 0 ∧
    ("A B" : String) ≠ "A%20B" ∧
    get_hashname "StatTrak™ M4" "X" 0 0 = get_hashname "M4" "X" 0 1 ∧
    (("StatTrak™ M4" : String), (0 : Int)) ≠ ("M4", 1) := by
  refine ⟨by decide, by decide, by decide, by decide⟩

/-- C5 (witness): the amended theorem applied to two concrete tuples that
differ in the weapon only, yielding distinct hashnames. -/
theorem hashname_injective_witness :
    get_hashname "AK-47" "Redline" 0 0 ≠ get_hashname "M4A4" "Redline" 0 0 := by
  intro h
  have hiff := hashname_deterministic_and_injective "AK-47" "Redline" "M4A4" "Redline" 0 0 0 0
    (by decide) (by decide) (by decide) (by decide) (by decide) (by decide)
    (by decide) (by decide) (Or.inl rfl) (Or.inl rfl)
  have := (hiff.mp h).1
  exact absurd this (by decide)
